import Mathlib

/-!
Verification development for the zcast-player scheduling engine
(`src/schedule.ts`, new-format path) and the presentation coordinator
(`src/renderer.ts`). The Lean definitions below are a shallow embedding of
the TypeScript source:

* Luxon `DateTime` values are modelled by `DT`, a calendar day index plus a
  millisecond-of-day, all interpreted in one fixed-offset zone (every claim
  is single-zone; DST transitions are out of scope). Luxon comparisons go
  through `valueOf`/`toMillis`, modelled by `DT.toMillis`.
* `fromTime`/`toTime` strings of the well-formed shape "HH:mm:ss.SSS" are
  modelled by the parsed `TimeOfDay` quadruple (the source splits the string
  on `:` and `.` and numeric-coerces each part; absent strings take the
  documented defaults 00:00:00.000 / 23:59:59.999).
* `inceptAt`/`expireAt` are modelled by `DateField`: absent (the field is
  undefined, so `DateTime.fromISO` is never called), invalid (present but
  `fromISO` yields an invalid DateTime, `isValid = false`), or valid.
* JSON manifest values are modelled by `JVal` for the normalizer and the
  coordinator, and the canonical schedule item by `NewItem` for the
  evaluator/picker (the evaluator only ever sees normalized items).
-/

namespace ZCast

/-- Milliseconds per calendar day. -/
def msPerDay : Int := 86400000

/-- A Luxon `DateTime` in the item's zone: a day index (day 0 is a Monday in
this model) and the millisecond within that day. -/
structure DT where
  day : Int
  ms : Int
deriving DecidableEq, Repr

/-- Luxon `valueOf`/`toMillis`: the instant as epoch milliseconds. -/
def DT.toMillis (t : DT) : Int := t.day * msPerDay + t.ms

/-- Build a `DT` from epoch milliseconds (normalizing the day split). -/
def DT.ofMillis (m : Int) : DT := ⟨m / msPerDay, m % msPerDay⟩

/-- Luxon `plus {millisecond: n}`. -/
def DT.plusMs (t : DT) (n : Int) : DT := DT.ofMillis (t.toMillis + n)

/-- Luxon `plus {days: n}`: keeps the time of day. -/
def DT.plusDays (t : DT) (n : Int) : DT := ⟨t.day + n, t.ms⟩

theorem DT.toMillis_plusMs (t : DT) (n : Int) :
    (t.plusMs n).toMillis = t.toMillis + n := by
  simp only [DT.plusMs, DT.ofMillis, DT.toMillis, msPerDay]
  omega

/-- Luxon weekday (1 = Monday .. 7 = Sunday) of the instant's day. -/
def luxonWeekday (t : DT) : Int := t.day % 7 + 1

/-- `ALL_DAYS = ['mo','tu','we','th','fr','sa','su']` as an enumeration. -/
inductive ByDayCode where
  | mo | tu | we | th | fr | sa | su
deriving DecidableEq, Repr, Fintype

/-- `toByDayCode`: lower-case the string and keep it only when it is one of
the seven codes (`String(x ?? '').toLowerCase()` then membership test). -/
def toByDayCode (s : String) : Option ByDayCode :=
  match s.toLower with
  | "mo" => some .mo
  | "tu" => some .tu
  | "we" => some .we
  | "th" => some .th
  | "fr" => some .fr
  | "sa" => some .sa
  | "su" => some .su
  | _ => none

/-- `DOW`: Luxon weekday order, Monday first. -/
def DOW : List ByDayCode := [.mo, .tu, .we, .th, .fr, .sa, .su]

/-- `dayCodeFromLuxon`: `i = ((weekday - 1) % 7 + 7) % 7; return DOW[i]`
(JavaScript `%` is truncating `Int.tmod`). -/
def dayCodeFromLuxon (weekday : Int) : ByDayCode :=
  DOW.getD ((((weekday - 1).tmod 7 + 7).tmod 7).toNat) .mo

/-- A parsed "HH:mm:ss.SSS" time-of-day string. -/
structure TimeOfDay where
  hour : Int
  minute : Int
  second : Int
  millisecond : Int
deriving DecidableEq, Repr

/-- Default `fromTime` when absent: 00:00:00.000. -/
def defaultFromTime : TimeOfDay := ⟨0, 0, 0, 0⟩

/-- Default `toTime` when absent: 23:59:59.999. -/
def defaultToTime : TimeOfDay := ⟨23, 59, 59, 999⟩

/-- Luxon `now.set {hour, minute, second, millisecond}`. -/
def setTime (now : DT) (t : TimeOfDay) : DT :=
  ⟨now.day, t.hour * 3600000 + t.minute * 60000 + t.second * 1000 + t.millisecond⟩

/-- `todaysWindow`: start and end of the item's time-of-day window on
`now`'s calendar day, defaulting to the full day. -/
def todaysWindow (now : DT) (fromTime toTime : Option TimeOfDay) : DT × DT :=
  (setTime now (fromTime.getD defaultFromTime),
   setTime now (toTime.getD defaultToTime))

/-- The result of `d.inceptAt ? DateTime.fromISO(d.inceptAt, {zone}) : null`
together with Luxon's `isValid` flag. -/
inductive DateField where
  | absent
  | invalid
  | valid (dt : DT)
deriving DecidableEq, Repr

/-- The item's `media` payload: absent/nullish, or a document with an
optional `type` tag; `payload` is an opaque label distinguishing documents. -/
inductive Media where
  | absent
  | doc (typeTag : Option String) (payload : Nat)
deriving DecidableEq, Repr

/-- JavaScript truthiness of the `media` value (`c.layout && ...`). -/
def Media.truthy : Media → Bool
  | .absent => false
  | .doc _ _ => true

/-- The `type` field of the media document (undefined when absent). -/
def Media.typeTag : Media → Option String
  | .absent => none
  | .doc t _ => t

/-- `c.layout && c.layout.type === 'layout'`: the eligibility test applied
to an item's payload by `pickActiveContent`. -/
def eligibleMedia (m : Media) : Bool :=
  m.truthy && (m.typeTag == some "layout")

/-- The canonical new-format schedule item (`NewItem` in `src/schedule.ts`)
after normalization. `days` entries keep only the `day` field, already
string-coerced; `workingDays`/`weekend` are their JS truthiness. -/
structure NewItem where
  inceptAt : DateField
  expireAt : DateField
  fromTime : Option TimeOfDay
  toTime : Option TimeOfDay
  days : Option (List String)
  workingDays : Bool
  weekend : Bool
  priority : Int
  media : Media
  name : Option String
deriving DecidableEq, Repr

/-- An unconstrained item: every optional field absent, flags unset. -/
def baseItem : NewItem :=
  ⟨.absent, .absent, none, none, none, false, false, 0, .absent, none⟩

/-- `allowedToday`: a present non-empty `days` array is consulted (entries
whose `day` does not parse to a code are filtered out); otherwise the
`workingDays`/`weekend` flags decide, defaulting to every day. -/
def allowedToday (today : ByDayCode) (itemDays : Option (List String))
    (workingDays weekend : Bool) : Bool :=
  let byFlags : Bool :=
    if workingDays && weekend then true
    else if workingDays then
      ([ByDayCode.mo, .tu, .we, .th, .fr] : List ByDayCode).contains today
    else if weekend then
      ([ByDayCode.sa, .su] : List ByDayCode).contains today
    else true
  match itemDays with
  | some l => if 0 < l.length then (l.filterMap toByDayCode).contains today else byFlags
  | none => byFlags

/-- `dayStart` of `todaysWindow(now, d.fromTime, d.toTime)`. -/
def itemDayStart (now : DT) (d : NewItem) : DT :=
  (todaysWindow now d.fromTime d.toTime).1

/-- `dayEnd` of `todaysWindow(now, d.fromTime, d.toTime)`. -/
def itemDayEnd (now : DT) (d : NewItem) : DT :=
  (todaysWindow now d.fromTime d.toTime).2

/-- `withinDates`: `(!incept || (incept.isValid && now >= incept)) &&
(!expire || (expire.isValid && now <= expire))`. -/
def withinDates (now : DT) (d : NewItem) : Bool :=
  (match d.inceptAt with
   | .absent => true
   | .invalid => false
   | .valid i => decide (i.toMillis ≤ now.toMillis)) &&
  (match d.expireAt with
   | .absent => true
   | .invalid => false
   | .valid e => decide (now.toMillis ≤ e.toMillis))

/-- `active = withinDates && allowedDay && withinDayWindow` for one item
(the flag is independent of the item's index in the manifest). -/
def itemActiveB (now : DT) (d : NewItem) : Bool :=
  withinDates now d &&
  allowedToday (dayCodeFromLuxon (luxonWeekday now)) d.days d.workingDays d.weekend &&
  (decide ((itemDayStart now d).toMillis ≤ now.toMillis) &&
   decide (now.toMillis ≤ (itemDayEnd now d).toMillis))

/-- The `nextCheck` instant before the expire clamp: `incept` when still
ahead, else today's `dayStart` when still ahead, else `dayEnd + 1ms` when
active, else tomorrow's `dayStart`. -/
def itemNextCheckRaw (now : DT) (d : NewItem) : DT :=
  let dayStart := itemDayStart now d
  let dayEnd := itemDayEnd now d
  let tomorrowStart := (todaysWindow (now.plusDays 1) d.fromTime d.toTime).1
  let base : DT :=
    if now.toMillis < dayStart.toMillis then dayStart
    else if itemActiveB now d then dayEnd.plusMs 1
    else tomorrowStart
  match d.inceptAt with
  | .valid i => if now.toMillis < i.toMillis then i else base
  | _ => base

/-- The final `nextCheckMs`: the raw instant clamped to `expireAt + 1ms`
when a valid `expireAt` lies strictly before it
(`if (expire && expire.isValid && nextCheck > expire) nextCheck = expire.plus({millisecond: 1})`). -/
def itemNextCheckMs (now : DT) (d : NewItem) : Int :=
  (match d.expireAt with
   | .valid e =>
       if e.toMillis < (itemNextCheckRaw now d).toMillis then e.plusMs 1
       else itemNextCheckRaw now d
   | _ => itemNextCheckRaw now d).toMillis

/-- One entry of the `candidates` array built by `pickActiveContent`. -/
structure Candidate where
  idx : Nat
  active : Bool
  layout : Media
  priority : Int
  nextCheckMs : Int
deriving DecidableEq, Repr

/-- The body of `items.map((d, idx) => ...)` in `pickActiveContent`. -/
def evalItem (now : DT) (idx : Nat) (d : NewItem) : Candidate :=
  ⟨idx, itemActiveB now d, d.media, d.priority, itemNextCheckMs now d⟩

/-- `candidates = items.map((d, idx) => ...)`. -/
def candidatesOf (items : List NewItem) (now : DT) : List Candidate :=
  items.enum.map fun p => evalItem now p.1 p.2

/-- The filter applied to candidates:
`c.active && c.layout && c.layout.type === 'layout'` (the last two
conjuncts are `eligibleMedia`). -/
def eligibleActive (c : Candidate) : Bool :=
  c.active && eligibleMedia c.layout

/-- `actives = candidates.filter(...)`. -/
def activesOf (items : List NewItem) (now : DT) : List Candidate :=
  (candidatesOf items now).filter eligibleActive

/-- `true` when `a` sorts strictly before `b` under the comparator
`(b.priority - a.priority) || (b.idx - a.idx)`: higher priority first, and
on equal priority the higher original index first. -/
def candBetter (a b : Candidate) : Bool :=
  decide (b.priority < a.priority) ||
  (decide (b.priority = a.priority) && decide (b.idx < a.idx))

/-- Head of `actives.sort(comparator)`: since the indices in the list are
pairwise distinct, the comparator is a strict total order, so the sorted
head is the maximum under the lexicographic `(priority, idx)` key; this
fold computes exactly that maximum. -/
def chooseBest : Candidate → List Candidate → Candidate
  | best, [] => best
  | best, c :: cs => chooseBest (if candBetter c best then c else best) cs

/-- `ActivePick`, the result type of `pickActiveContent`. -/
inductive ActivePick where
  | none (nextCheck : Int)
  | layout (layout : Media) (nextCheck : Int) (reason : String)
deriving DecidableEq, Repr

/-- The `nextCheck` carried by either variant. -/
def ActivePick.nextCheckOf : ActivePick → Int
  | .none n => n
  | .layout _ n _ => n

/-- The chosen layout, when one was picked. -/
def ActivePick.layoutOf : ActivePick → Option Media
  | .none _ => Option.none
  | .layout m _ _ => some m

/-- `Math.min` over a non-empty list of millisecond stamps. -/
def minMs (x : Int) (xs : List Int) : Int := xs.foldl min x

/-- `pickActiveContent` on the normalized item sequence. An empty sequence
returns `none` with a re-check one minute ahead (`Date.now() + 60_000`; in
the player loop `Date.now()` coincides with the `nowJS` argument). With
items present, `nextCheck` is the minimum stamp over all candidates, the
eligible actives are filtered, and the comparator-sorted head (the
lexicographic `(priority, idx)` maximum) supplies the layout. -/
def pickActiveContent (items : List NewItem) (now : DT) : ActivePick :=
  match candidatesOf items now with
  | [] => .none (now.toMillis + 60000)
  | c0 :: rest =>
      let nextCheck := minMs c0.nextCheckMs (rest.map Candidate.nextCheckMs)
      match ((c0 :: rest).filter eligibleActive) with
      | [] => .none nextCheck
      | a :: tail => .layout (chooseBest a tail).layout nextCheck "new-format+priority"

/-- A JSON-compatible JavaScript value, as the normalizer and the
coordinator receive them (`NaN` and functions are out of scope). -/
inductive JVal where
  | vnull
  | vundefined
  | vbool (b : Bool)
  | vnum (n : Int)
  | vstr (s : String)
  | varr (elems : List JVal)
  | vobj (fields : List (String × JVal))
deriving Repr

/-- First binding of a key in an object's field list. -/
def lookupField : List (String × JVal) → String → Option JVal
  | [], _ => Option.none
  | (k, v) :: rest, key => if k = key then some v else lookupField rest key

/-- JavaScript property read `x.key` (undefined when missing or when `x` is
not an object; JSON arrays carry no string-keyed fields). -/
def JVal.get : JVal → String → JVal
  | .vobj fs, k => (lookupField fs k).getD .vundefined
  | _, _ => .vundefined

/-- JavaScript truthiness. -/
def JVal.truthy : JVal → Bool
  | .vnull => false
  | .vundefined => false
  | .vbool b => b
  | .vnum n => decide (n ≠ 0)
  | .vstr s => decide (s ≠ "")
  | .varr _ => true
  | .vobj _ => true

/-- `typeof x === 'object'` (true for `null`, arrays and objects). -/
def JVal.isObjectType : JVal → Bool
  | .vnull => true
  | .varr _ => true
  | .vobj _ => true
  | _ => false

/-- `'key' in x` for an object (a JSON array has no string keys). -/
def JVal.hasField : JVal → String → Bool
  | .vobj fs, k => (lookupField fs k).isSome
  | _, _ => false

/-- `Array.isArray x`. -/
def JVal.isArray : JVal → Bool
  | .varr _ => true
  | _ => false

/-- `x === "s"` for a string literal. -/
def JVal.isStrVal : JVal → String → Bool
  | .vstr t, s => decide (t = s)
  | _, _ => false

/-- The nullish-coalescing operator `a ?? b`. -/
def jvalCoalesce (a b : JVal) : JVal :=
  match a with
  | .vnull => b
  | .vundefined => b
  | _ => a

/-- `looksFlat(x)`: `x && typeof x === 'object' && 'media' in x && x.media
&& typeof x.media === 'object'`. -/
def looksFlat (x : JVal) : Bool :=
  x.truthy && x.isObjectType && x.hasField "media" &&
  (x.get "media").truthy && (x.get "media").isObjectType

/-- `looksNested(x)`: `x && typeof x === 'object' && x.data && typeof
x.data === 'object' && 'media' in x.data`. -/
def looksNested (x : JVal) : Bool :=
  x.truthy && x.isObjectType && (x.get "data").truthy &&
  (x.get "data").isObjectType && (x.get "data").hasField "media"

/-- `unwrapListWrappers`: unwrap one `{results: [...]}` / `{data: [...]}` /
`{items: [...]}` envelope, in that precedence, when the field is an array. -/
def unwrapListWrappers (x : JVal) : JVal :=
  if x.truthy && x.isObjectType then
    if (x.get "results").isArray then x.get "results"
    else if (x.get "data").isArray then x.get "data"
    else if (x.get "items").isArray then x.get "items"
    else x
  else x

/-- The loop body of `normalize`: push a flat element as-is, push the
`data` of a nested element, skip everything else. -/
def normalizeStep (out : List JVal) (it : JVal) : List JVal :=
  if looksFlat it then out ++ [it]
  else if looksNested it then out ++ [it.get "data"]
  else out

/-- `normalize(manifest)`: unwrap one envelope; iterate an array with the
push loop; treat a single (truthy) object as one candidate element; return
the empty sequence otherwise. Total — unrecognized elements never raise. -/
def normalize (manifest : JVal) : List JVal :=
  let raw := unwrapListWrappers manifest
  match raw with
  | .varr xs => xs.foldl normalizeStep []
  | _ =>
      if raw.truthy && raw.isObjectType then
        if looksFlat raw then [raw]
        else if looksNested raw then [raw.get "data"]
        else []
      else []

/-- Specification-side recognizer for one manifest element: a flat element
yields itself, a nested element yields its `data`, anything else is
dropped. -/
def recognizeElem (x : JVal) : Option JVal :=
  if looksFlat x then some x
  else if looksNested x then some (x.get "data")
  else Option.none

/-- Specification-side element sequence of an unwrapped manifest: the
elements of an array, the singleton of a truthy object, nothing else. -/
def manifestElems (raw : JVal) : List JVal :=
  match raw with
  | .varr xs => xs
  | _ => if raw.truthy && raw.isObjectType then [raw] else []

/-- The two renderer kinds of `src/renderer.ts`. -/
inductive RendererKind where
  | layout
  | playlist
deriving DecidableEq, Repr

/-- Result of `resolveNextFromEngineItem`: renderer kind, the document to
assign, and the display identity `doc?.id ?? doc?.name` (possibly
undefined). -/
structure ResolvedNext where
  kind : RendererKind
  doc : JVal
  id : JVal
deriving Repr

/-- `resolveNextFromEngineItem(item)`: unwrap
`item?.layout ?? item?.media ?? item?.document ?? item`, classify it as a
playlist when `raw.type === 'playlist'` or `raw.items` is an array, and
take `doc?.id ?? doc?.name` as the identity. -/
def resolveNextFromEngineItem (item : JVal) : ResolvedNext :=
  let raw := jvalCoalesce (item.get "layout")
    (jvalCoalesce (item.get "media") (jvalCoalesce (item.get "document") item))
  let looksPlaylist := raw.truthy && ((raw.get "type").isStrVal "playlist" || (raw.get "items").isArray)
  let kind := if looksPlaylist then RendererKind.playlist else RendererKind.layout
  let id := jvalCoalesce (raw.get "id") (raw.get "name")
  ⟨kind, raw, id⟩

/-- JavaScript strict equality `===` restricted to primitive values, the
only values that occur as display identities (`doc.id` / `doc.name` are
JSON strings or numbers; `===` on objects would compare references, which
this model does not need). -/
def jsPrimEq : JVal → JVal → Bool
  | .vstr a, .vstr b => decide (a = b)
  | .vnum a, .vnum b => decide (a = b)
  | .vbool a, .vbool b => decide (a = b)
  | .vnull, .vnull => true
  | .vundefined, .vundefined => true
  | _, _ => false

/-- The mutable coordinator variables of `src/renderer.ts` that the claim
observes: `lastGood` (kind + id of the content on screen), the documents
mounted on the visible and hidden layers, and the pending sleep duration
passed to `scheduleNext`. -/
structure CoordState where
  lastGood : Option (RendererKind × JVal)
  frontDoc : JVal
  backDoc : JVal
  timer : Int
deriving Repr

/-- Observable side effects of one `tick`. -/
inductive TickAction where
  | prepare (kind : RendererKind) (doc : JVal)
  | swap
deriving Repr

/-- One `tick` of `src/renderer.ts` (success path; `engineItem` is the
`item` of `engine.next(...)`, `tickMs` its sleep hint). With no item the
timer is re-armed at `min(1000, max(250, tickMs))`. Otherwise the guard
`lastGood && lastGood.kind === next.kind && lastGood.id && next.id &&
lastGood.id === next.id` decides between only re-arming at
`max(500, tickMs)` and preparing the back buffer, swapping the layers and
recording the new `lastGood`. -/
def tick (st : CoordState) (engineItem : Option JVal) (tickMs : Int) :
    CoordState × List TickAction :=
  match engineItem with
  | Option.none => ({ st with timer := min 1000 (max 250 tickMs) }, [])
  | some item =>
    let next := resolveNextFromEngineItem item
    let same : Bool :=
      match st.lastGood with
      | some (k, lid) =>
          decide (k = next.kind) && lid.truthy && next.id.truthy && jsPrimEq lid next.id
      | Option.none => false
    if same then ({ st with timer := max 500 tickMs }, [])
    else
      ({ lastGood := some (next.kind, next.id),
         frontDoc := next.doc,
         backDoc := st.frontDoc,
         timer := max 500 tickMs },
       [.prepare next.kind next.doc, .swap])

/-! ### Shared concrete inputs and helper lemmas -/

/-- A 09:00–17:00 item with no other constraint, parametric in the fields
the time-of-day window does not read. -/
def windowItem (m : Media) (p : Int) (nm : Option String) : NewItem :=
  ⟨.absent, .absent, some ⟨9, 0, 0, 0⟩, some ⟨17, 0, 0, 0⟩, none, false, false, p, m, nm⟩

/-- An always-active layout item with the given priority, payload label and
name. -/
def plainItem (p : Int) (pl : Nat) (nm : Option String) : NewItem :=
  ⟨.absent, .absent, none, none, none, false, false, p, .doc (some "layout") pl, nm⟩

theorem minMs_le (x : Int) (xs : List Int) :
    minMs x xs ≤ x ∧ ∀ y ∈ xs, minMs x xs ≤ y := by
  induction xs generalizing x with
  | nil => simp [minMs]
  | cons z zs ih =>
    have h := ih (min x z)
    refine ⟨le_trans h.1 (min_le_left _ _), ?_⟩
    intro y hy
    rcases List.mem_cons.mp hy with rfl | hy
    · exact le_trans h.1 (min_le_right _ _)
    · exact h.2 y hy

theorem minMs_mem (x : Int) (xs : List Int) :
    minMs x xs = x ∨ minMs x xs ∈ xs := by
  induction xs generalizing x with
  | nil => simp [minMs]
  | cons z zs ih =>
    have h := ih (min x z)
    have heq : minMs x (z :: zs) = minMs (min x z) zs := rfl
    rcases h with h | h
    · rcases min_cases x z with ⟨hmin, _⟩ | ⟨hmin, _⟩
      · left; rw [heq, h, hmin]
      · right; rw [heq, h, hmin]; exact List.mem_cons_self _ _
    · right; rw [heq]; exact List.mem_cons_of_mem _ h

/-- The lexicographic `(priority, idx)` order the comparator realizes. -/
def candLe (a b : Candidate) : Prop :=
  a.priority < b.priority ∨ (a.priority = b.priority ∧ a.idx ≤ b.idx)

theorem candLe_refl (a : Candidate) : candLe a a := Or.inr ⟨rfl, le_refl _⟩

theorem candLe_trans {a b c : Candidate} (h1 : candLe a b) (h2 : candLe b c) :
    candLe a c := by
  rcases h1 with h1 | ⟨h1, h1i⟩ <;> rcases h2 with h2 | ⟨h2, h2i⟩
  · exact Or.inl (lt_trans h1 h2)
  · exact Or.inl (h2 ▸ h1)
  · exact Or.inl (h1 ▸ h2)
  · exact Or.inr ⟨h1.trans h2, le_trans h1i h2i⟩

theorem candBetter_true {a b : Candidate} (h : candBetter a b = true) :
    candLe b a := by
  simp only [candBetter, Bool.or_eq_true, Bool.and_eq_true, decide_eq_true_eq] at h
  rcases h with h | ⟨h, hi⟩
  · exact Or.inl h
  · exact Or.inr ⟨h, le_of_lt hi⟩

theorem candBetter_false {a b : Candidate} (h : candBetter a b = false) :
    candLe a b := by
  simp only [candBetter, Bool.or_eq_false_iff, Bool.and_eq_false_iff,
    decide_eq_false_iff_not, not_lt] at h
  rcases h with ⟨h1, h2⟩
  rcases lt_or_eq_of_le h1 with h | h
  · exact Or.inl h
  · rcases h2 with h2 | h2
    · exact absurd h.symm h2
    · exact Or.inr ⟨h, h2⟩

theorem chooseBest_spec (l : List Candidate) (b : Candidate) :
    (chooseBest b l = b ∨ chooseBest b l ∈ l) ∧
    candLe b (chooseBest b l) ∧ ∀ c ∈ l, candLe c (chooseBest b l) := by
  induction l generalizing b with
  | nil => exact ⟨Or.inl rfl, candLe_refl b, by simp⟩
  | cons c cs ih =>
    simp only [chooseBest]
    cases hcb : candBetter c b with
    | true =>
      have h := ih c
      simp only [hcb, if_pos] at h ⊢
      refine ⟨?_, ?_, ?_⟩
      · rcases h.1 with h1 | h1
        · exact Or.inr (by simp [h1])
        · exact Or.inr (List.mem_cons_of_mem _ h1)
      · exact candLe_trans (candBetter_true hcb) h.2.1
      · intro x hx
        rcases List.mem_cons.mp hx with rfl | hx
        · exact h.2.1
        · exact h.2.2 x hx
    | false =>
      have h := ih b
      simp only [hcb, if_neg] at h ⊢
      refine ⟨?_, h.2.1, ?_⟩
      · rcases h.1 with h1 | h1
        · exact Or.inl h1
        · exact Or.inr (List.mem_cons_of_mem _ h1)
      · intro x hx
        rcases List.mem_cons.mp hx with rfl | hx
        · exact candLe_trans (candBetter_false hcb) h.2.1
        · exact h.2.2 x hx

/-! ### C1 -/

/-- C1 counterexample: the claim asserts that the 09:00–17:00 item is
inactive at exactly 17:00:00.000, but the source's
`withinDayWindow = now >= dayStart && now <= dayEnd` includes the end
instant, so the item is active there. -/
theorem c1_counterexample :
    itemActiveB ⟨0, 61200000⟩ (windowItem (.doc (some "layout") 0) 0 none) = true := by
  decide

/-- C1 (amended): a 09:00:00.000–17:00:00.000 item with no other
constraints is, on every day, active at exactly 09:00:00.000, at
16:59:59.999 and at exactly 17:00:00.000, and inactive at 08:59:59.999:
the time-of-day window admits both its start and its end instant. -/
theorem c1_window_boundaries (day : Int) (m : Media) (p : Int) (nm : Option String) :
    itemActiveB ⟨day, 32400000⟩ (windowItem m p nm) = true ∧
    itemActiveB ⟨day, 61199999⟩ (windowItem m p nm) = true ∧
    itemActiveB ⟨day, 61200000⟩ (windowItem m p nm) = true ∧
    itemActiveB ⟨day, 32399999⟩ (windowItem m p nm) = false := by
  refine ⟨?_, ?_, ?_, ?_⟩ <;>
    simp [itemActiveB, withinDates, windowItem, allowedToday, itemDayStart,
      itemDayEnd, todaysWindow, setTime, DT.toMillis, msPerDay]

/-! ### C4 -/

/-- C4: day-filter semantics. A present non-empty `days` list is the sole
day filter (the boolean flags do not appear in the result); an absent or
empty list defers to the flags: both set allows every day, `workingDays`
alone allows Monday–Friday, `weekend` alone allows Saturday–Sunday, and
neither flag allows every day. -/
theorem c4_day_filter :
    (∀ (today : ByDayCode) (e : String) (es : List String) (wd we : Bool),
        allowedToday today (some (e :: es)) wd we
          = ((e :: es).filterMap toByDayCode).contains today) ∧
    (∀ (today : ByDayCode) (wd we : Bool),
        allowedToday today (some []) wd we = allowedToday today none wd we) ∧
    (∀ today : ByDayCode, allowedToday today none true true = true) ∧
    (∀ today : ByDayCode,
        allowedToday today none true false
          = decide (today = .mo ∨ today = .tu ∨ today = .we ∨ today = .th ∨ today = .fr)) ∧
    (∀ today : ByDayCode,
        allowedToday today none false true = decide (today = .sa ∨ today = .su)) ∧
    (∀ today : ByDayCode, allowedToday today none false false = true) := by
  refine ⟨?_, ?_, ?_, ?_, ?_, ?_⟩
  · intro today e es wd we
    simp [allowedToday]
  · intro today wd we
    simp [allowedToday]
  · decide
  · decide
  · decide
  · decide

/-! ### C7 -/

/-- C7: a present but unparseable `inceptAt` or `expireAt` makes its
`withinDates` conjunct false (`incept.isValid && ...` short-circuits), so
the item is inactive at every instant; evaluation is total, so no crash. -/
theorem c7_invalid_bound_inactive (now : DT) (d : NewItem)
    (h : d.inceptAt = .invalid ∨ d.expireAt = .invalid) :
    withinDates now d = false ∧ itemActiveB now d = false := by
  have hw : withinDates now d = false := by
    rcases h with h | h <;> simp [withinDates, h]
  exact ⟨hw, by simp [itemActiveB, hw]⟩

/-- C7 witness: a concrete item whose `inceptAt` is present but invalid is
inactive at a concrete instant. -/
theorem c7_invalid_bound_inactive_witness :
    withinDates ⟨0, 43200000⟩
        ⟨.invalid, .absent, none, none, none, false, false, 0, .doc (some "layout") 4, none⟩ = false ∧
    itemActiveB ⟨0, 43200000⟩
        ⟨.invalid, .absent, none, none, none, false, false, 0, .doc (some "layout") 4, none⟩ = false :=
  c7_invalid_bound_inactive ⟨0, 43200000⟩ _ (Or.inl rfl)

/-! ### C8 -/

theorem foldl_normalizeStep (xs : List JVal) (acc : List JVal) :
    xs.foldl normalizeStep acc = acc ++ xs.filterMap recognizeElem := by
  induction xs generalizing acc with
  | nil => simp
  | cons x xs ih =>
    simp only [List.foldl_cons, List.filterMap_cons]
    cases hf : looksFlat x
    · cases hn : looksNested x
      · simp [normalizeStep, recognizeElem, hf, hn, ih]
      · simp [normalizeStep, recognizeElem, hf, hn, ih]
    · simp [normalizeStep, recognizeElem, hf, ih]

/-- C8: `normalize` returns exactly the recognized elements — a flat
element itself, a nested element's `data` — of the once-unwrapped
manifest, in input order; every element matching neither shape is dropped
(and, being a total function, `normalize` never errors). -/
theorem c8_normalize_exact (m : JVal) :
    normalize m = (manifestElems (unwrapListWrappers m)).filterMap recognizeElem := by
  unfold normalize manifestElems
  cases hraw : unwrapListWrappers m with
  | varr xs => exact (foldl_normalizeStep xs []).trans (by simp)
  | vnull => simp [JVal.truthy]
  | vundefined => simp [JVal.truthy]
  | vbool b => simp [JVal.isObjectType]
  | vnum n => simp [JVal.isObjectType]
  | vstr s => simp [JVal.isObjectType]
  | vobj fs =>
      cases hf : looksFlat (JVal.vobj fs)
      · cases hn : looksNested (JVal.vobj fs)
        · simp [recognizeElem, hf, hn, JVal.truthy, JVal.isObjectType]
        · simp [recognizeElem, hf, hn, JVal.truthy, JVal.isObjectType]
      · simp [recognizeElem, hf, JVal.truthy, JVal.isObjectType]

/-! ### Destructuring lemmas for the picker -/

theorem evalItem_active (now : DT) (i : Nat) (d : NewItem) :
    (evalItem now i d).active = itemActiveB now d := rfl

theorem evalItem_layout (now : DT) (i : Nat) (d : NewItem) :
    (evalItem now i d).layout = d.media := rfl

theorem evalItem_priority (now : DT) (i : Nat) (d : NewItem) :
    (evalItem now i d).priority = d.priority := rfl

theorem evalItem_idx (now : DT) (i : Nat) (d : NewItem) :
    (evalItem now i d).idx = i := rfl

theorem candidatesOf_ne_nil (items : List NewItem) (now : DT) (h : items ≠ []) :
    candidatesOf items now ≠ [] := by
  cases items with
  | nil => exact absurd rfl h
  | cons a as =>
      intro hc
      have : (candidatesOf (a :: as) now).length = 0 := by rw [hc]; rfl
      simp [candidatesOf] at this

theorem pickActiveContent_nil (items : List NewItem) (now : DT)
    (h : candidatesOf items now = []) :
    pickActiveContent items now = .none (now.toMillis + 60000) := by
  unfold pickActiveContent
  rw [h]

theorem pickActiveContent_cons (items : List NewItem) (now : DT)
    (c0 : Candidate) (rest : List Candidate)
    (hcs : candidatesOf items now = c0 :: rest) :
    pickActiveContent items now =
      (match (c0 :: rest).filter eligibleActive with
       | [] => ActivePick.none (minMs c0.nextCheckMs (rest.map Candidate.nextCheckMs))
       | a :: tail =>
           ActivePick.layout (chooseBest a tail).layout
             (minMs c0.nextCheckMs (rest.map Candidate.nextCheckMs))
             "new-format+priority") := by
  unfold pickActiveContent
  rw [hcs]

/-! ### C5 -/

/-- C5: for a non-empty normalized item sequence and any instant, the
`nextCheck` value returned by `pickActiveContent` — with or without a
selection — is the minimum of the per-item `nextCheckMs` stamps over all
candidates, the inactive ones included. -/
theorem c5_next_check_is_min (items : List NewItem) (now : DT) (h : items ≠ []) :
    (pickActiveContent items now).nextCheckOf
        ∈ (candidatesOf items now).map Candidate.nextCheckMs ∧
    ∀ y ∈ (candidatesOf items now).map Candidate.nextCheckMs,
      (pickActiveContent items now).nextCheckOf ≤ y := by
  rcases hcs : candidatesOf items now with _ | ⟨c0, rest⟩
  · exact absurd hcs (candidatesOf_ne_nil items now h)
  · rw [pickActiveContent_cons items now c0 rest hcs]
    have hmem := minMs_mem c0.nextCheckMs (rest.map Candidate.nextCheckMs)
    have hle := minMs_le c0.nextCheckMs (rest.map Candidate.nextCheckMs)
    rcases hfil : (c0 :: rest).filter eligibleActive with _ | ⟨a, tail⟩ <;>
    · simp only [hfil, ActivePick.nextCheckOf, List.map_cons]
      constructor
      · rcases hmem with hx | hx
        · rw [hx]; exact List.mem_cons_self _ _
        · exact List.mem_cons_of_mem _ hx
      · intro y hy
        rcases List.mem_cons.mp hy with rfl | hy
        · exact hle.1
        · exact hle.2 y hy

/-- C5 witness: one always-active item; the returned `nextCheck` is its
(`dayEnd + 1ms`) stamp, the minimum of the singleton stamp list. -/
theorem c5_next_check_is_min_witness :
    (pickActiveContent [plainItem 1 7 none] ⟨0, 0⟩).nextCheckOf
        ∈ (candidatesOf [plainItem 1 7 none] ⟨0, 0⟩).map Candidate.nextCheckMs ∧
    ∀ y ∈ (candidatesOf [plainItem 1 7 none] ⟨0, 0⟩).map Candidate.nextCheckMs,
      (pickActiveContent [plainItem 1 7 none] ⟨0, 0⟩).nextCheckOf ≤ y :=
  c5_next_check_is_min [plainItem 1 7 none] ⟨0, 0⟩ (List.cons_ne_nil _ _)

/-! ### C3 -/

/-- C3: when a priority-5 item and a priority-1 item are both active and
eligible, the priority-5 item's payload is the one selected, in either
manifest order. -/
theorem c3_priority_five_beats_one (a b : NewItem) (now : DT)
    (ha : itemActiveB now a = true) (hb : itemActiveB now b = true)
    (ea : eligibleMedia a.media = true) (eb : eligibleMedia b.media = true)
    (pa : a.priority = 5) (pb : b.priority = 1) :
    (pickActiveContent [a, b] now).layoutOf = some a.media ∧
    (pickActiveContent [b, a] now).layoutOf = some a.media := by
  constructor
  · have hfa : eligibleActive (evalItem now 0 a) = true := by
      simp [eligibleActive, evalItem_active, evalItem_layout, ha, ea]
    have hfb : eligibleActive (evalItem now 1 b) = true := by
      simp [eligibleActive, evalItem_active, evalItem_layout, hb, eb]
    rw [pickActiveContent_cons [a, b] now (evalItem now 0 a) [evalItem now 1 b] rfl]
    have hfil : ([evalItem now 0 a, evalItem now 1 b]).filter eligibleActive
        = [evalItem now 0 a, evalItem now 1 b] := by
      simp [List.filter, hfa, hfb]
    rw [hfil]
    have hne : ¬ candLe (evalItem now 0 a) (evalItem now 1 b) := by
      simp only [candLe, evalItem_priority, pa, pb]
      omega
    have hspec := chooseBest_spec [evalItem now 1 b] (evalItem now 0 a)
    rcases hspec.1 with hch | hch
    · simp [ActivePick.layoutOf, hch, evalItem_layout]
    · rcases List.mem_singleton.mp hch with hch
      exact absurd (hch ▸ hspec.2.1) hne
  · have hfa : eligibleActive (evalItem now 1 a) = true := by
      simp [eligibleActive, evalItem_active, evalItem_layout, ha, ea]
    have hfb : eligibleActive (evalItem now 0 b) = true := by
      simp [eligibleActive, evalItem_active, evalItem_layout, hb, eb]
    rw [pickActiveContent_cons [b, a] now (evalItem now 0 b) [evalItem now 1 a] rfl]
    have hfil : ([evalItem now 0 b, evalItem now 1 a]).filter eligibleActive
        = [evalItem now 0 b, evalItem now 1 a] := by
      simp [List.filter, hfa, hfb]
    rw [hfil]
    have hspec := chooseBest_spec [evalItem now 1 a] (evalItem now 0 b)
    rcases hspec.1 with hch | hch
    · have hcontra := hspec.2.2 (evalItem now 1 a) (List.mem_singleton_self _)
      rw [hch] at hcontra
      simp only [candLe, evalItem_priority, pa, pb] at hcontra
      omega
    · rcases List.mem_singleton.mp hch with hch
      simp [ActivePick.layoutOf, hch, evalItem_layout]

/-- C3 witness: two concrete always-active layout items with priorities 5
and 1; the priority-5 payload is selected in both orders. -/
theorem c3_priority_five_beats_one_witness :
    (pickActiveContent [plainItem 5 10 none, plainItem 1 11 none] ⟨0, 1000⟩).layoutOf
        = some (plainItem 5 10 none).media ∧
    (pickActiveContent [plainItem 1 11 none, plainItem 5 10 none] ⟨0, 1000⟩).layoutOf
        = some (plainItem 5 10 none).media :=
  c3_priority_five_beats_one (plainItem 5 10 none) (plainItem 1 11 none) ⟨0, 1000⟩
    (by decide) (by decide) (by decide) (by decide) rfl rfl

/-! ### C2 -/

/-- C2 counterexample: two items tied at priority 3 whose display names
"alpha" (index 0) and "beta" (index 1) put index 0 first in
case-insensitive name order; the selection nonetheless returns the index-1
item's payload, so the tied group is not consumed in (name, index) order. -/
theorem c2_counterexample :
    pickActiveContent [plainItem 3 1 (some "alpha"), plainItem 3 2 (some "beta")]
        ⟨0, 43200000⟩
      = .layout (Media.doc (some "layout") 2) 86400000 "new-format+priority" ∧
    (plainItem 3 1 (some "alpha")).priority = (plainItem 3 2 (some "beta")).priority ∧
    (plainItem 3 2 (some "beta")).media = Media.doc (some "layout") 2 ∧
    (plainItem 3 1 (some "alpha")).media ≠ Media.doc (some "layout") 2 := by
  exact ⟨by decide, rfl, rfl, by decide⟩

/-- C2 (amended): among the active eligible candidates, the selection takes
the lexicographically `(priority, idx)`-greatest one: within the tied
top-priority group the item with the greatest original manifest index wins
("last defined wins"); display names are never consulted. -/
theorem c2_tie_selects_greatest_index (items : List NewItem) (now : DT)
    (m : Media) (nc : Int) (r : String)
    (h : pickActiveContent items now = .layout m nc r) :
    ∃ ch ∈ activesOf items now, m = ch.layout ∧
      ∀ c ∈ activesOf items now,
        c.priority < ch.priority ∨ (c.priority = ch.priority ∧ c.idx ≤ ch.idx) := by
  rcases hcs : candidatesOf items now with _ | ⟨c0, rest⟩
  · rw [pickActiveContent_nil items now hcs] at h
    exact absurd h (by simp)
  · rw [pickActiveContent_cons items now c0 rest hcs] at h
    rcases hfil : (c0 :: rest).filter eligibleActive with _ | ⟨a, tail⟩
    · rw [hfil] at h
      exact absurd h (by simp)
    · rw [hfil] at h
      have hacts : activesOf items now = a :: tail := by
        rw [activesOf, hcs, hfil]
      have hspec := chooseBest_spec tail a
      have hm : m = (chooseBest a tail).layout := by
        simp only [ActivePick.layout.injEq] at h
        exact h.1.symm
      refine ⟨chooseBest a tail, ?_, hm, ?_⟩
      · rw [hacts]
        rcases hspec.1 with hch | hch
        · rw [hch]; exact List.mem_cons_self _ _
        · exact List.mem_cons_of_mem _ hch
      · intro c hc
        rw [hacts] at hc
        rcases List.mem_cons.mp hc with rfl | hc
        · exact hspec.2.1
        · exact hspec.2.2 c hc

/-- C2 witness: applying the amended theorem to the two tied items of the
counterexample; the chosen candidate dominates both actives in the
`(priority, idx)` order. -/
theorem c2_tie_selects_greatest_index_witness :
    ∃ ch ∈ activesOf [plainItem 3 1 (some "alpha"), plainItem 3 2 (some "beta")]
        ⟨0, 43200000⟩,
      Media.doc (some "layout") 2 = ch.layout ∧
      ∀ c ∈ activesOf [plainItem 3 1 (some "alpha"), plainItem 3 2 (some "beta")]
          ⟨0, 43200000⟩,
        c.priority < ch.priority ∨ (c.priority = ch.priority ∧ c.idx ≤ ch.idx) :=
  c2_tie_selects_greatest_index _ _ (Media.doc (some "layout") 2) 86400000
    "new-format+priority" (by decide)

/-! ### C10 -/

/-- C10: a selection always carries a payload whose explicit `type` tag is
`'layout'` (playlist documents and untagged payloads are never selected);
and when no active candidate is layout-tagged the result is `none`, still
carrying the minimum `nextCheckMs` over all candidates. -/
theorem c10_only_layout_selected (items : List NewItem) (now : DT) :
    (∀ m nc r, pickActiveContent items now = .layout m nc r →
        m.typeTag = some "layout" ∧ m.truthy = true) ∧
    (items ≠ [] →
      (∀ c ∈ candidatesOf items now, c.active = true → eligibleMedia c.layout = false) →
      ∃ n, pickActiveContent items now = .none n ∧
        n ∈ (candidatesOf items now).map Candidate.nextCheckMs ∧
        ∀ y ∈ (candidatesOf items now).map Candidate.nextCheckMs, n ≤ y) := by
  constructor
  · intro m nc r h
    rcases hcs : candidatesOf items now with _ | ⟨c0, rest⟩
    · rw [pickActiveContent_nil items now hcs] at h
      exact absurd h (by simp)
    · rw [pickActiveContent_cons items now c0 rest hcs] at h
      rcases hfil : (c0 :: rest).filter eligibleActive with _ | ⟨a, tail⟩
      · rw [hfil] at h
        exact absurd h (by simp)
      · rw [hfil] at h
        have hm : m = (chooseBest a tail).layout := by
          simp only [ActivePick.layout.injEq] at h
          exact h.1.symm
        have hchmem : chooseBest a tail ∈ (c0 :: rest).filter eligibleActive := by
          rw [hfil]
          rcases (chooseBest_spec tail a).1 with hch | hch
          · rw [hch]; exact List.mem_cons_self _ _
          · exact List.mem_cons_of_mem _ hch
        have helig : eligibleActive (chooseBest a tail) = true :=
          (List.mem_filter.mp hchmem).2
        simp only [eligibleActive, eligibleMedia, Bool.and_eq_true, beq_iff_eq] at helig
        subst hm
        exact ⟨helig.2.2, helig.2.1⟩
  · intro hne hno
    rcases hcs : candidatesOf items now with _ | ⟨c0, rest⟩
    · exact absurd hcs (candidatesOf_ne_nil items now hne)
    · have hfil : (c0 :: rest).filter eligibleActive = [] := by
        rw [List.filter_eq_nil_iff]
        intro c hc
        have hc2 : c ∈ candidatesOf items now := hcs ▸ hc
        cases hact : c.active with
        | false => simp [eligibleActive, hact]
        | true => simp [eligibleActive, hact, hno c hc2 hact]
      rw [pickActiveContent_cons items now c0 rest hcs, hfil]
      refine ⟨minMs c0.nextCheckMs (rest.map Candidate.nextCheckMs), rfl, ?_, ?_⟩
      · rw [List.map_cons]
        rcases minMs_mem c0.nextCheckMs (rest.map Candidate.nextCheckMs) with hx | hx
        · rw [hx]; exact List.mem_cons_self _ _
        · exact List.mem_cons_of_mem _ hx
      · rw [List.map_cons]
        intro y hy
        rcases List.mem_cons.mp hy with rfl | hy
        · exact (minMs_le _ _).1
        · exact (minMs_le _ _).2 y hy

/-- C10 witness: a single active item whose payload is a playlist document
is never selected: the result is `none` with the minimum candidate stamp. -/
theorem c10_only_layout_selected_witness :
    ∃ n, pickActiveContent
        [⟨.absent, .absent, none, none, none, false, false, 0, .doc (some "playlist") 5, none⟩]
        ⟨0, 43200000⟩ = .none n ∧
      n ∈ (candidatesOf
        [⟨.absent, .absent, none, none, none, false, false, 0, .doc (some "playlist") 5, none⟩]
        ⟨0, 43200000⟩).map Candidate.nextCheckMs ∧
      ∀ y ∈ (candidatesOf
        [⟨.absent, .absent, none, none, none, false, false, 0, .doc (some "playlist") 5, none⟩]
        ⟨0, 43200000⟩).map Candidate.nextCheckMs, n ≤ y :=
  (c10_only_layout_selected _ _).2 (List.cons_ne_nil _ _) (by decide)

/-! ### C6 -/

/-- The `DateField` denoted by an optional parsed instant (absent, or
present and valid). -/
def dfOfOpt : Option DT → DateField
  | Option.none => .absent
  | some t => .valid t

/-- The claim's description of the per-item next-change computation, stated
in its own words: `inceptAt` when now is before it; else today's
`dayStart` when now is before it; else `dayEnd + 1ms` when the item is
currently active; else the following day's `dayStart`; finally replaced by
`expireAt + 1ms` when the computed instant lies past `expireAt`. -/
def nextChangeInstantSpec (now : DT) (incept expire : Option DT)
    (fromTime toTime : Option TimeOfDay) (active : Bool) : Int :=
  let dayStart := (todaysWindow now fromTime toTime).1
  let dayEnd := (todaysWindow now fromTime toTime).2
  let followingDayStart := (todaysWindow (now.plusDays 1) fromTime toTime).1
  let later : DT :=
    if now.toMillis < dayStart.toMillis then dayStart
    else if active then dayEnd.plusMs 1
    else followingDayStart
  let computed : DT :=
    match incept with
    | some i => if now.toMillis < i.toMillis then i else later
    | Option.none => later
  match expire with
  | some e => if e.toMillis < computed.toMillis then (e.plusMs 1).toMillis else computed.toMillis
  | Option.none => computed.toMillis

/-- C6: the evaluator's `nextCheckMs` follows exactly the claimed priority
order (for items whose date bounds, when present, parse), and in
particular an item whose `inceptAt` lies one hour ahead (with no
`expireAt`) is inactive now with `nextChangeInstant` equal to `inceptAt`. -/
theorem c6_next_change_priority_order :
    (∀ (now : DT) (d : NewItem) (io eo : Option DT),
        d.inceptAt = dfOfOpt io → d.expireAt = dfOfOpt eo →
        itemNextCheckMs now d
          = nextChangeInstantSpec now io eo d.fromTime d.toTime (itemActiveB now d)) ∧
    (∀ (now : DT) (d : NewItem),
        d.inceptAt = .valid (now.plusMs 3600000) → d.expireAt = .absent →
        itemActiveB now d = false ∧
        itemNextCheckMs now d = now.toMillis + 3600000) := by
  constructor
  · intro now d io eo hio heo
    unfold itemNextCheckMs itemNextCheckRaw nextChangeInstantSpec
    rw [hio, heo]
    cases io <;> cases eo <;>
      simp only [dfOfOpt, itemDayStart, itemDayEnd, apply_ite DT.toMillis]
  · intro now d hi he
    have hact : itemActiveB now d = false := by
      have hw : withinDates now d = false := by
        have : ¬ ((now.plusMs 3600000).toMillis ≤ now.toMillis) := by
          rw [DT.toMillis_plusMs]; omega
        simp [withinDates, hi, this]
      simp [itemActiveB, hw]
    refine ⟨hact, ?_⟩
    have hlt : now.toMillis < (now.plusMs 3600000).toMillis := by
      rw [DT.toMillis_plusMs]; omega
    unfold itemNextCheckMs itemNextCheckRaw
    rw [hi, he]
    simp [hlt, DT.toMillis_plusMs]

/-- C6 witness: a concrete item whose `inceptAt` is one hour past a
concrete noon instant is inactive there and re-checks exactly at
`inceptAt` (13:00:00.000, i.e. 46800000 ms into day 0). -/
theorem c6_next_change_priority_order_witness :
    itemActiveB ⟨0, 43200000⟩
        ⟨.valid (DT.plusMs ⟨0, 43200000⟩ 3600000), .absent, none, none, none, false, false, 0,
          .doc (some "layout") 3, none⟩ = false ∧
    itemNextCheckMs ⟨0, 43200000⟩
        ⟨.valid (DT.plusMs ⟨0, 43200000⟩ 3600000), .absent, none, none, none, false, false, 0,
          .doc (some "layout") 3, none⟩ = (43200000 : Int) + 3600000 :=
  c6_next_change_priority_order.2 ⟨0, 43200000⟩ _ rfl rfl

/-! ### C9 -/

/-- A layout document with id `0` and a body distinguishing it from what is
on screen. -/
def c9Doc : JVal := .vobj [("type", .vstr "layout"), ("id", .vnum 0), ("body", .vstr "B")]

/-- An engine item resolving to `c9Doc`. -/
def c9Item : JVal := .vobj [("layout", c9Doc)]

/-- Coordinator state currently showing a layout with id `0`. -/
def c9State : CoordState := ⟨some (.layout, .vnum 0), .vstr "A", .vstr "old", 0⟩

/-- C9 counterexample: the newly selected item's identity (renderer kind
`layout`, id `0`) equals the identity of the currently shown item, yet the
tick prepares the back buffer and swaps — the displayed document changes —
because the guard `lastGood.id && next.id && ...` requires both ids to be
truthy and the number `0` is falsy. -/
theorem c9_counterexample :
    c9State.lastGood
        = some ((resolveNextFromEngineItem c9Item).kind, (resolveNextFromEngineItem c9Item).id) ∧
    (tick c9State (some c9Item) 1000).2
        = [TickAction.prepare RendererKind.layout c9Doc, TickAction.swap] ∧
    (tick c9State (some c9Item) 1000).1.frontDoc = c9Doc ∧
    c9Doc ≠ c9State.frontDoc := by
  refine ⟨rfl, rfl, rfl, fun h => ?_⟩
  exact JVal.noConfusion h

/-- `true` for the primitive id values (strings and numbers) that
`doc?.id ?? doc?.name` produces. -/
def isPrimId : JVal → Bool
  | .vstr _ => true
  | .vnum _ => true
  | _ => false

theorem jsPrimEq_self (i : JVal) (h : isPrimId i = true) : jsPrimEq i i = true := by
  cases i <;> simp_all [isPrimId, jsPrimEq]

/-- C9 (amended): when the newly selected item's identity equals the shown
identity and the shared id is a present truthy primitive (a non-empty
string or non-zero number), the tick performs no preparation and no swap —
no action at all — and only re-arms the sleep timer to `max 500 tickMs`,
leaving `lastGood` and both buffer documents unchanged. -/
theorem c9_redundancy_guard (st : CoordState) (item : JVal) (tickMs : Int)
    (k : RendererKind) (i : JVal)
    (h1 : st.lastGood = some (k, i))
    (h2 : (resolveNextFromEngineItem item).kind = k)
    (h3 : (resolveNextFromEngineItem item).id = i)
    (h4 : i.truthy = true)
    (h5 : isPrimId i = true) :
    tick st (some item) tickMs = ({ st with timer := max 500 tickMs }, []) := by
  have hpe := jsPrimEq_self i h5
  simp [tick, h1, h2, h3, h4, hpe]

/-- State currently showing a layout with the truthy string id "x". -/
def c9GoodState : CoordState := ⟨some (.layout, .vstr "x"), .vstr "A", .vstr "old", 0⟩

/-- Engine item resolving to a layout document whose id is "x". -/
def c9GoodItem : JVal := .vobj [("layout", .vobj [("type", .vstr "layout"), ("id", .vstr "x")])]

/-- C9 witness: with a truthy string id shared by the shown and the newly
selected item, the tick only re-arms the timer. -/
theorem c9_redundancy_guard_witness :
    tick c9GoodState (some c9GoodItem) 1000
      = ({ c9GoodState with timer := max 500 1000 }, []) :=
  c9_redundancy_guard c9GoodState c9GoodItem 1000 RendererKind.layout (.vstr "x")
    rfl rfl rfl (by decide) rfl

end ZCast
